import Mathlib

/-!
Verification of the mindspace audio pipeline server.

The JavaScript sources embedded here are `src/pol.js` (Polly speech
synthesis, text truncation, local/S3 audio persistence), `src/transcribe.js`
and `src/unnamed/part_000` (AWS Transcribe coordination), `src/graniteLLM.js`
(Watsonx text generation) and `src/help.js` (the pipeline coordinator
`processAudioWithAI`).

JavaScript strings are modelled as `List Char`, one element per UTF-16 code
unit (every constant appearing in the sources is ASCII, where the two
notions coincide).  External services (Polly, S3, Transcribe, Watsonx) and
the filesystem are modelled by explicit oracle parameters / state values,
so every stateful function becomes a pure function of its environment.
-/

/-- Characters treated as whitespace by JavaScript (the ASCII part of the
WhiteSpace/LineTerminator productions; enough for the claims, which only
need that the plain space `' '` is whitespace). -/
def isJsWhitespace (c : Char) : Bool :=
  c == ' ' || c == '\t' || c == '\n' || c == '\r' || c == '\x0b' || c == '\x0c'

/-- Sentence terminators recognized by `truncateTextForPolly` in
`src/pol.js`: `'.'`, `'!'`, `'?'`. -/
def isSentenceTerminator (c : Char) : Bool :=
  c == '.' || c == '!' || c == '?'

lemma isSentenceTerminator_iff (c : Char) :
    isSentenceTerminator c = true ↔ c = '.' ∨ c = '!' ∨ c = '?' := by
  simp [isSentenceTerminator, or_assoc]

/-- JavaScript `String.prototype.lastIndexOf` specialized to a single
character: the largest index at which `c` occurs in `l`, and `-1` when `c`
does not occur (JS returns the number `-1` in that case). -/
def jsLastIndexOf : List Char → Char → Int
  | [], _ => -1
  | a :: as, c =>
    if jsLastIndexOf as c = -1 then (if a = c then 0 else -1)
    else jsLastIndexOf as c + 1

lemma jsLastIndexOf_ge_neg_one (l : List Char) (c : Char) :
    -1 ≤ jsLastIndexOf l c := by
  induction l with
  | nil => simp [jsLastIndexOf]
  | cons a as ih =>
    simp only [jsLastIndexOf]
    split
    · split <;> norm_num
    · omega

lemma jsLastIndexOf_eq_neg_one_iff (l : List Char) (c : Char) :
    jsLastIndexOf l c = -1 ↔ c ∉ l := by
  induction l with
  | nil => simp [jsLastIndexOf]
  | cons a as ih =>
    simp only [jsLastIndexOf, List.mem_cons]
    by_cases h : jsLastIndexOf as c = -1
    · rw [if_pos h]
      have hnotin : c ∉ as := ih.mp h
      by_cases hac : a = c
      · rw [if_pos hac]
        subst hac
        simp [hnotin]
      · rw [if_neg hac]
        have hca : ¬c = a := fun hca => hac hca.symm
        simp [hnotin, hca]
    · rw [if_neg h]
      have hc : c ∈ as := by
        by_contra hc
        exact h (ih.mpr hc)
      have hge := jsLastIndexOf_ge_neg_one as c
      simp only [hc, or_true, not_true_eq_false, iff_false]
      omega

lemma jsLastIndexOf_spec (l : List Char) (c : Char)
    (h : jsLastIndexOf l c ≠ -1) :
    ∃ k : Nat, jsLastIndexOf l c = (k : Int) ∧ k < l.length ∧
      l[k]? = some c ∧ ∀ m : Nat, k < m → l[m]? ≠ some c := by
  induction l with
  | nil => simp [jsLastIndexOf] at h
  | cons a as ih =>
    by_cases hr : jsLastIndexOf as c = -1
    · have hnotin : c ∉ as := (jsLastIndexOf_eq_neg_one_iff as c).mp hr
      by_cases hac : a = c
      · refine ⟨0, ?_, by simp, by simp [hac], ?_⟩
        · simp [jsLastIndexOf, hr, hac]
        · intro m hm hsome
          match m, hm with
          | m + 1, _ =>
            rw [List.getElem?_cons_succ] at hsome
            exact hnotin (List.getElem?_mem hsome)
      · exfalso
        apply h
        simp [jsLastIndexOf, hr, hac]
    · obtain ⟨k, hk, hklen, hkc, hmax⟩ := ih hr
      refine ⟨k + 1, ?_, by simpa using Nat.succ_lt_succ hklen, by simpa using hkc, ?_⟩
      · simp only [jsLastIndexOf, if_neg hr, hk]
        push_cast
        ring
      · intro m hm hsome
        match m, hm with
        | m + 1, hm =>
          rw [List.getElem?_cons_succ] at hsome
          exact hmax m (Nat.lt_of_succ_lt_succ hm) hsome

lemma jsLastIndexOf_ge (l : List Char) (c : Char) (k : Nat)
    (h : l[k]? = some c) : (k : Int) ≤ jsLastIndexOf l c := by
  induction l generalizing k with
  | nil => simp at h
  | cons a as ih =>
    match k with
    | 0 =>
      rw [List.getElem?_cons_zero] at h
      have hac : a = c := by injection h
      subst hac
      simp only [jsLastIndexOf]
      split
      · simp
      · have := jsLastIndexOf_ge_neg_one as a
        omega
    | k + 1 =>
      rw [List.getElem?_cons_succ] at h
      have hk := ih k h
      have hne : jsLastIndexOf as c ≠ -1 := by omega
      simp only [jsLastIndexOf, if_neg hne]
      push_cast
      omega

/-- The `lastSentenceEnd` value computed by `truncateTextForPolly` in
`src/pol.js` (lines 58-62): `Math.max` of the last indices of `'.'`, `'!'`
and `'?'` in the truncated window. -/
def lastSentenceEnd (l : List Char) : Int :=
  max (max (jsLastIndexOf l '.') (jsLastIndexOf l '!')) (jsLastIndexOf l '?')

lemma lastSentenceEnd_ge_neg_one (l : List Char) : -1 ≤ lastSentenceEnd l := by
  have := jsLastIndexOf_ge_neg_one l '.'
  unfold lastSentenceEnd
  omega

lemma lastSentenceEnd_ge (l : List Char) (m : Nat) (d : Char)
    (hm : l[m]? = some d) (hd : isSentenceTerminator d = true) :
    (m : Int) ≤ lastSentenceEnd l := by
  unfold lastSentenceEnd
  rcases (isSentenceTerminator_iff d).mp hd with rfl | rfl | rfl
  · have := jsLastIndexOf_ge l '.' m hm
    omega
  · have := jsLastIndexOf_ge l '!' m hm
    omega
  · have := jsLastIndexOf_ge l '?' m hm
    omega

lemma lastSentenceEnd_exists (l : List Char) (h : 0 ≤ lastSentenceEnd l) :
    ∃ k : Nat, lastSentenceEnd l = (k : Int) ∧ k < l.length ∧
      ∃ d, l[k]? = some d ∧ isSentenceTerminator d = true := by
  have hcases : lastSentenceEnd l = jsLastIndexOf l '.' ∨
      lastSentenceEnd l = jsLastIndexOf l '!' ∨
      lastSentenceEnd l = jsLastIndexOf l '?' := by
    unfold lastSentenceEnd
    omega
  rcases hcases with he | he | he
  · have hne : jsLastIndexOf l '.' ≠ -1 := by omega
    obtain ⟨k, hk, hkl, hkc, _⟩ := jsLastIndexOf_spec l '.' hne
    exact ⟨k, by omega, hkl, '.', hkc, by decide⟩
  · have hne : jsLastIndexOf l '!' ≠ -1 := by omega
    obtain ⟨k, hk, hkl, hkc, _⟩ := jsLastIndexOf_spec l '!' hne
    exact ⟨k, by omega, hkl, '!', hkc, by decide⟩
  · have hne : jsLastIndexOf l '?' ≠ -1 := by omega
    obtain ⟨k, hk, hkl, hkc, _⟩ := jsLastIndexOf_spec l '?' hne
    exact ⟨k, by omega, hkl, '?', hkc, by decide⟩

/-- Fuel-driven binary logarithm (structural recursion on the fuel, so it
reduces inside the kernel, unlike the well-founded `Nat.log2`). -/
def log2Fuel : Nat → Nat → Nat
  | 0, _ => 0
  | fuel + 1, n => if 2 ≤ n then log2Fuel fuel (n / 2) + 1 else 0

/-- Floor of the binary logarithm (`natLog2 0 = 0`); fuel `n` suffices
because the argument halves at every step. -/
def natLog2 (n : Nat) : Nat := log2Fuel n n

lemma log2Fuel_spec : ∀ fuel n : Nat, 1 ≤ n → n ≤ fuel →
    2 ^ log2Fuel fuel n ≤ n ∧ n < 2 ^ (log2Fuel fuel n + 1) := by
  intro fuel
  induction fuel with
  | zero => intro n h1 h2; omega
  | succ fuel ih =>
    intro n h1 h2
    by_cases h : 2 ≤ n
    · have hrec := ih (n / 2) (by omega) (by omega)
      simp only [log2Fuel, if_pos h]
      constructor
      · rw [pow_succ]
        have := hrec.1
        omega
      · rw [pow_succ]
        have := hrec.2
        omega
    · simp only [log2Fuel, if_neg h]
      constructor
      · simp only [pow_zero]
        exact h1
      · simp only [zero_add, pow_one]
        omega

lemma natLog2_spec (n : Nat) (h : 1 ≤ n) :
    2 ^ natLog2 n ≤ n ∧ n < 2 ^ (natLog2 n + 1) :=
  log2Fuel_spec n n h (le_refl n)

/-- The least integer `lastSentenceEnd` for which the float guard
`lastSentenceEnd > maxLength * 0.7` of `src/pol.js` line 64 holds (an
integer index is exact in an IEEE double, so the guard is
`truncationCutoff maxLength ≤ lastSentenceEnd`).

Derivation of the cutoff from IEEE double semantics, for every `m` below
`2^49` (far beyond any reachable guard evaluation: a JS string, hence the
truncated window, is shorter than `2^31` code units, and the guard is only
reached when `maxLength < text.length`):

The double nearest to `0.7` is `c / 2^53` with `c = 6305039478318694`
(`0.7 * 2^53 = c + 0.4`), so the exact product is
`m * 0.7 - 0.4 * m / 2^53`, which the multiplication then rounds to 53
significant bits (round to nearest, ties to even).

When `m` is not a multiple of 10, the fractional part of `7m/10` is at
least `1/10`, while the drift `0.4m/2^53` plus the rounding error (half an
ulp, at most `2^-5` for products below `2^49`) stays below `1/10`; the
rounded product therefore lies strictly between `⌊7m/10⌋` and
`⌊7m/10⌋ + 1`, and the guard first holds at `⌊7m/10⌋ + 1`.

When `m = 10t`, the exact product is `7t - t/2^51` (since
`10c = 7 * 2^53 - 4`).  Rounding returns the representable integer `7t`
unless the deficit `t/2^51` exceeds half the double spacing `s` just below
`7t` — and `t/2^51 > s/2` unfolds to `2^k < 8t` for the unique power of
two `2^k` exceeding `7t`, i.e. a power of two lying strictly between `7t`
and `8t` (the tie `8t = 2^k` has an even candidate significand `7 * 2^50`
and rounds back to `7t`).  In that case the rounded product is just below
`7t` (within the sub-1 spacing) and the guard already holds at `7t`; e.g.
`90 * 0.7 = 62.99999999999999` so the cutoff at `m = 90` is 63, while
`2500 * 0.7 = 1750` exactly, so the cutoff at the reference limit is
1751. -/
def truncationCutoff (m : Nat) : Nat :=
  if m % 10 = 0 ∧ 2 ^ (natLog2 (7 * (m / 10)) + 1) < 8 * (m / 10) then
    7 * m / 10
  else
    7 * m / 10 + 1

lemma truncationCutoff_le (m : Nat) : truncationCutoff m ≤ 7 * m / 10 + 1 := by
  unfold truncationCutoff
  split <;> omega

lemma truncationCutoff_le_of_past (m i : Nat) (h : 7 * (m : Int) < 10 * i) :
    truncationCutoff m ≤ i := by
  have h1 := truncationCutoff_le m
  omega

/-- Embedding of `truncateTextForPolly` from `src/pol.js` (lines 51-76).

The float guard `lastSentenceEnd > maxLength * 0.7` of the source is
rendered as `truncationCutoff maxLength ≤ lastSentenceEnd`, its exact
integer form (see `truncationCutoff` for the derivation).
`text.substring(0, n)` is `List.take n`, `lastIndexOf` is `jsLastIndexOf`,
and the appended ellipsis marker `'...'` is the three-character list
`"...".data`. -/
def truncateTextForPolly (text : List Char) (maxLength : Nat := 2500) : List Char :=
  if text.length ≤ maxLength then text
  else
    let truncated := text.take maxLength
    if (truncationCutoff maxLength : Int) ≤ lastSentenceEnd truncated then
      truncated.take (lastSentenceEnd truncated + 1).toNat
    else if 0 < jsLastIndexOf truncated ' ' then
      truncated.take (jsLastIndexOf truncated ' ').toNat ++ "...".data
    else
      truncated ++ "...".data

/-- Shared helper: when the input is longer than the limit, the window
contains no sentence terminator at or beyond the guard cutoff (the indices
where the source's float comparison against 70% of the limit holds), and
the window contains no space, `truncateTextForPolly` takes the hard-cut
branch and returns the window followed by the ellipsis marker. -/
lemma truncateTextForPolly_hardCut (text : List Char) (maxLength : Nat)
    (hlen : maxLength < text.length)
    (hterm : ∀ k : Nat, k < maxLength → truncationCutoff maxLength ≤ k →
      ((text.take maxLength)[k]?.all fun c => !isSentenceTerminator c) = true)
    (hspace : ' ' ∉ text.take maxLength) :
    truncateTextForPolly text maxLength = text.take maxLength ++ "...".data := by
  have hlen' : ¬ text.length ≤ maxLength := by omega
  simp only [truncateTextForPolly, if_neg hlen']
  have htlen : (text.take maxLength).length = maxLength := by
    rw [List.length_take]
    omega
  have hcond : ¬ ((truncationCutoff maxLength : Int) ≤
      lastSentenceEnd (text.take maxLength)) := by
    intro hge
    have hnn : 0 ≤ lastSentenceEnd (text.take maxLength) := by
      have := Int.natCast_nonneg (truncationCutoff maxLength)
      omega
    obtain ⟨k, hk, hklen, d, hkd, hdterm⟩ := lastSentenceEnd_exists _ hnn
    have hbig : truncationCutoff maxLength ≤ k := by omega
    have := hterm k (htlen ▸ hklen) hbig
    rw [hkd] at this
    simp [hdterm] at this
  rw [if_neg hcond]
  have hsp : jsLastIndexOf (text.take maxLength) ' ' = -1 :=
    (jsLastIndexOf_eq_neg_one_iff _ _).mpr hspace
  have hsp' : ¬ (0 : Int) < jsLastIndexOf (text.take maxLength) ' ' := by
    rw [hsp]
    norm_num
  rw [if_neg hsp']

/-- C1 (amended): the truncation helper's result never exceeds the max
length by more than the 3-character ellipsis marker: its length is at most
`maxLength + 3`.  (The bound `maxLength` itself is violated by the two
ellipsis branches; see the counterexample.) -/
theorem truncateTextForPolly_length_le (text : List Char) (maxLength : Nat) :
    (truncateTextForPolly text maxLength).length ≤ maxLength + 3 := by
  have h3 : ("...".data).length = 3 := rfl
  simp only [truncateTextForPolly]
  split
  · next h => omega
  · next h =>
    split
    · have ha := List.length_take_le'
        ((lastSentenceEnd (text.take maxLength) + 1).toNat) (text.take maxLength)
      have hb := List.length_take_le maxLength text
      omega
    · split
      · rw [List.length_append, List.length_take, List.length_take, h3]
        omega
      · rw [List.length_append, List.length_take, h3]
        omega

/-- C1 (counterexample): at the reference limit 2500, an input of 2501
characters with no space and no sentence terminator is truncated to 2503
characters — strictly more than the max length, refuting the claim that
the result length is always at most the max length. -/
theorem truncateTextForPolly_exceeds_maxLength :
    (truncateTextForPolly (List.replicate 2501 'a') 2500).length = 2503 ∧
      ¬ (truncateTextForPolly (List.replicate 2501 'a') 2500).length ≤ 2500 := by
  have hcut := truncateTextForPolly_hardCut (List.replicate 2501 'a') 2500
    (by rw [List.length_replicate]; norm_num) ?_ ?_
  · rw [hcut, List.length_append, List.length_take, List.length_replicate]
    norm_num
  · intro k hk hbig
    rw [List.take_replicate, List.getElem?_replicate]
    have : k < min 2500 2501 := by omega
    rw [if_pos this]
    decide
  · intro hmem
    have := List.take_subset 2500 (List.replicate 2501 'a') hmem
    rw [List.mem_replicate] at this
    exact absurd this.2 (by decide)

/-- C8: for every string strictly shorter than the limit,
`truncateTextForPolly` is the identity: it returns the input unchanged
(the source returns `text` whenever `text.length <= maxLength`). -/
theorem truncateTextForPolly_identity_of_short (text : List Char) (maxLength : Nat)
    (h : text.length < maxLength) :
    truncateTextForPolly text maxLength = text := by
  simp only [truncateTextForPolly]
  rw [if_pos (by omega : text.length ≤ maxLength)]

/-- C8 witness: a concrete short input is returned unchanged. -/
theorem truncateTextForPolly_identity_of_short_witness :
    truncateTextForPolly "hi".data 2500 = "hi".data :=
  truncateTextForPolly_identity_of_short "hi".data 2500 (by decide)

/-- C7: for every string longer than the limit containing no whitespace at
all and no sentence terminator past the 70% mark of the limit window —
that is, none at an index the source's guard
`lastSentenceEnd > maxLength * 0.7` would accept, `truncationCutoff` being
that guard's exact integer threshold — `truncateTextForPolly` returns
exactly the `maxLength`-character window of the original text followed by
the ellipsis marker `'...'`. -/
theorem truncateTextForPolly_noWhitespace_hardCut (text : List Char) (maxLength : Nat)
    (hlen : maxLength < text.length)
    (hws : ∀ c ∈ text, isJsWhitespace c = false)
    (hterm : ∀ k : Nat, k < maxLength → truncationCutoff maxLength ≤ k →
      ((text.take maxLength)[k]?.all fun c => !isSentenceTerminator c) = true) :
    truncateTextForPolly text maxLength = text.take maxLength ++ "...".data ∧
      (text.take maxLength).length = maxLength := by
  refine ⟨truncateTextForPolly_hardCut text maxLength hlen hterm ?_, ?_⟩
  · intro hsp
    exact absurd (hws ' ' (List.take_subset _ _ hsp)) (by decide)
  · rw [List.length_take]
    omega

/-- C7 witness: a concrete whitespace-free input whose only terminator sits
before the 70% mark is hard-cut to the window plus the ellipsis marker. -/
theorem truncateTextForPolly_noWhitespace_hardCut_witness :
    truncateTextForPolly "ab.cdefgh".data 5 = "ab.cd...".data ∧
      (("ab.cdefgh".data).take 5).length = 5 := by
  obtain ⟨h1, h2⟩ := truncateTextForPolly_noWhitespace_hardCut "ab.cdefgh".data 5
    (by decide) (by decide) (by decide)
  refine ⟨?_, h2⟩
  rw [h1]
  decide

/-- C6: for every string longer than the limit containing a sentence
terminator past the 70% mark of the limit window, `truncateTextForPolly`
returns the prefix of the input ending exactly at the last terminator of
the window (inclusive), and that result is at most `maxLength` long. -/
theorem truncateTextForPolly_sentenceBoundary (text : List Char) (maxLength : Nat)
    (hlen : maxLength < text.length)
    (hex : ∃ i : Nat, i < maxLength ∧ 7 * (maxLength : Int) < 10 * i ∧
      ∃ c, (text.take maxLength)[i]? = some c ∧ isSentenceTerminator c = true) :
    ∃ j : Nat, truncateTextForPolly text maxLength = text.take (j + 1) ∧
      j + 1 ≤ maxLength ∧ 7 * (maxLength : Int) < 10 * j ∧
      (∃ c, text[j]? = some c ∧ isSentenceTerminator c = true) ∧
      ∀ m : Nat, j < m → m < maxLength → ∀ c, text[m]? = some c →
        isSentenceTerminator c = false := by
  obtain ⟨i, hiM, hibig, c, hic, hcterm⟩ := hex
  have hlen' : ¬ text.length ≤ maxLength := by omega
  have htlen : (text.take maxLength).length = maxLength := by
    rw [List.length_take]
    omega
  have hiL := lastSentenceEnd_ge (text.take maxLength) i c hic hcterm
  have hcut := truncationCutoff_le_of_past maxLength i hibig
  have hcond : (truncationCutoff maxLength : Int) ≤
      lastSentenceEnd (text.take maxLength) := by
    omega
  obtain ⟨j, hjL, hjlen, d, hjd, hdterm⟩ :=
    lastSentenceEnd_exists (text.take maxLength) (by omega)
  refine ⟨j, ?_, by omega, by omega, ?_, ?_⟩
  · simp only [truncateTextForPolly, if_neg hlen']
    rw [if_pos hcond, hjL]
    have htoNat : ((j : Int) + 1).toNat = j + 1 := by omega
    rw [htoNat, List.take_take, min_eq_left (by omega : j + 1 ≤ maxLength)]
  · refine ⟨d, ?_, hdterm⟩
    rw [← List.getElem?_take_of_lt (show j < maxLength by omega)]
    exact hjd
  · intro m hjm hmM e hme
    by_contra hterm'
    have hterm'' : isSentenceTerminator e = true := by
      cases h : isSentenceTerminator e
      · exact absurd h hterm'
      · rfl
    have hle : (m : Int) ≤ lastSentenceEnd (text.take maxLength) :=
      lastSentenceEnd_ge (text.take maxLength) m e
        (by rw [List.getElem?_take_of_lt hmM]; exact hme) hterm''
    omega

/-- C6 witness: a concrete input with a terminator at index 9 of a
10-character window (past the 70% mark) is cut exactly there. -/
theorem truncateTextForPolly_sentenceBoundary_witness :
    ∃ j : Nat, truncateTextForPolly "aaaaaaaaa.x".data 10 = ("aaaaaaaaa.x".data).take (j + 1) ∧
      j + 1 ≤ 10 ∧ 7 * ((10 : Nat) : Int) < 10 * j ∧
      (∃ c, ("aaaaaaaaa.x".data)[j]? = some c ∧ isSentenceTerminator c = true) ∧
      ∀ m : Nat, j < m → m < 10 → ∀ c, ("aaaaaaaaa.x".data)[m]? = some c →
        isSentenceTerminator c = false :=
  truncateTextForPolly_sentenceBoundary "aaaaaaaaa.x".data 10 (by decide)
    ⟨9, by decide, by decide, '.', by decide, by decide⟩

/-- Decimal numeral of a natural number as a character list, modelling the
ECMAScript number-to-string conversion applied by the template literal
`polly-output-(Date.now()).mp3` in `src/pol.js` line 129: for an integer
below 2^53 the conversion yields its plain decimal digit string. -/
def natToDecimalChars (n : Nat) : List Char :=
  if n = 0 then ['0'] else (Nat.digits 10 n).reverse.map Nat.digitChar

lemma digitChar_inj_lt10 : ∀ a : Nat, a < 10 → ∀ b : Nat, b < 10 →
    Nat.digitChar a = Nat.digitChar b → a = b := by decide

lemma map_digitChar_inj : ∀ l1 l2 : List Nat, (∀ d ∈ l1, d < 10) → (∀ d ∈ l2, d < 10) →
    l1.map Nat.digitChar = l2.map Nat.digitChar → l1 = l2
  | [], [], _, _, _ => rfl
  | [], _ :: _, _, _, h => by simp at h
  | _ :: _, [], _, _, h => by simp at h
  | a :: as, b :: bs, h1, h2, h => by
    simp only [List.map_cons, List.cons.injEq] at h
    have hab := digitChar_inj_lt10 a (h1 a (by simp)) b (h2 b (by simp)) h.1
    have htl := map_digitChar_inj as bs (fun d hd => h1 d (by simp [hd]))
      (fun d hd => h2 d (by simp [hd])) h.2
    rw [hab, htl]

lemma natToDecimalChars_injective (m n : Nat)
    (h : natToDecimalChars m = natToDecimalChars n) : m = n := by
  have hzero : ∀ p : Nat, p ≠ 0 → natToDecimalChars p ≠ ['0'] := by
    intro p hp hcon
    simp only [natToDecimalChars, if_neg hp] at hcon
    have hlen : ((Nat.digits 10 p).reverse.map Nat.digitChar).length = 1 := by
      rw [hcon]
      rfl
    rw [List.length_map] at hlen
    obtain ⟨d, hd⟩ := List.length_eq_one.mp hlen
    rw [hd] at hcon
    simp only [List.map_cons, List.map_nil, List.cons.injEq, and_true] at hcon
    have hmem : d ∈ Nat.digits 10 p := by
      have hmem' : d ∈ (Nat.digits 10 p).reverse := by
        rw [hd]
        simp
      simpa using hmem'
    have hdlt : d < 10 := Nat.digits_lt_base (by norm_num) hmem
    have hd0 : d = 0 := digitChar_inj_lt10 d hdlt 0 (by norm_num) (by rw [hcon]; rfl)
    have hdig : Nat.digits 10 p = [0] := by
      have hrev := congrArg List.reverse hd
      simp only [List.reverse_reverse] at hrev
      rw [hrev, hd0]
      rfl
    have hof := Nat.ofDigits_digits 10 p
    rw [hdig] at hof
    simp [Nat.ofDigits] at hof
    exact hp hof.symm
  by_cases hm : m = 0 <;> by_cases hn : n = 0
  · rw [hm, hn]
  · rw [hm] at h
    simp only [natToDecimalChars, if_pos rfl] at h
    exact absurd h.symm (hzero n hn)
  · rw [hn] at h
    simp only [natToDecimalChars, if_pos rfl] at h
    exact absurd h (hzero m hm)
  · simp only [natToDecimalChars, if_neg hm, if_neg hn] at h
    have hdig := map_digitChar_inj _ _
      (fun d hd => Nat.digits_lt_base (by norm_num) (by simpa using hd))
      (fun d hd => Nat.digits_lt_base (by norm_num) (by simpa using hd)) h
    have hrev : Nat.digits 10 m = Nat.digits 10 n := by
      have := congrArg List.reverse hdig
      simpa using this
    exact Nat.digits.injective 10 hrev

/-- Storage key generated by `synthesizeSpeech` in `src/pol.js` line 129:
`polly-output-` followed by the decimal value of `Date.now()` (milliseconds
since the epoch, a weakly monotone clock reading) followed by `.mp3`. -/
def s3FileName (now : Nat) : List Char :=
  "polly-output-".data ++ natToDecimalChars now ++ ".mp3".data

/-- C4 (counterexample): two sequential synthesis calls may observe the
same `Date.now()` millisecond reading (the clock is only weakly monotone);
with equal readings — here both 1700000000000 — the two generated storage
keys are identical, refuting the claim that sequential calls always
produce distinct keys. -/
theorem s3FileName_collision_same_millisecond :
    1700000000000 ≤ 1700000000000 ∧
      s3FileName 1700000000000 = s3FileName 1700000000000 :=
  ⟨le_refl _, rfl⟩

/-- C4 (amended): whenever the millisecond clock advances between the two
key generations (strictly larger `Date.now()` reading at the second call),
the two storage keys are distinct, so the durable copies do not overwrite
each other. -/
theorem s3FileName_distinct_of_clock_advance (t1 t2 : Nat) (h : t1 < t2) :
    s3FileName t1 ≠ s3FileName t2 := by
  intro heq
  unfold s3FileName at heq
  have h1 := List.append_cancel_right heq
  have h2 := List.append_cancel_left h1
  have := natToDecimalChars_injective t1 t2 h2
  omega

/-- C4 witness: concrete distinct clock readings yield distinct keys. -/
theorem s3FileName_distinct_of_clock_advance_witness :
    s3FileName 0 ≠ s3FileName 1 :=
  s3FileName_distinct_of_clock_advance 0 1 (by decide)

/-- Local audio output directory (`public/aud_op`) as an association of
file names to byte contents. -/
abbrev DirState := List (List Char × List Nat)

/-- The predicate used by `clearPreviousAudio` in `src/pol.js` line 39:
`file.endsWith('.mp3')`. -/
def hasMp3Suffix (name : List Char) : Bool :=
  List.isSuffixOf ".mp3".data name

/-- The fixed local output file name of `src/pol.js` line 84:
`current_audio.mp3` (chosen for easy HTML embedding). -/
def currentAudioName : List Char := "current_audio.mp3".data

/-- Embedding of `clearPreviousAudio` from `src/pol.js` (lines 35-48):
deletes every `.mp3` file in the output directory, keeping other files. -/
def clearPreviousAudio (dir : DirState) : DirState :=
  dir.filter fun f => !hasMp3Suffix f.1

/-- Model of `fs.writeFileSync`: binds `name` to `bytes`, replacing any
previous binding of the same name. -/
def writeFileSync (dir : DirState) (name : List Char) (bytes : List Nat) : DirState :=
  (name, bytes) :: dir.filter fun f => !(f.1 == name)

/-- Contents of a file in the directory, when present. -/
def readFile (dir : DirState) (name : List Char) : Option (List Nat) :=
  (dir.find? fun f => f.1 == name).map Prod.snd

/-- Value returned by `synthesizeSpeech`: the success record (restricted
to the fields the coordinator reads: `localFileName`, `relativePath`) or
the `{success:false, error}` record produced by the catch block. -/
inductive SpeechResult
  | success (localFileName relativePath : List Char)
  | failure (error : List Char)
deriving DecidableEq

/-- Embedding of `synthesizeSpeech` from `src/pol.js` (lines 79-159) with
the default options: inside the try block it first runs
`clearPreviousAudio`, then sends the Polly command (`polly` is the oracle
outcome carrying the audio byte buffer on success), writes the buffer
locally under `currentAudioName`, and finally attempts the S3 upload
(`s3Put` the oracle outcome); any thrown error is caught and returned as
a `failure` carrying the message, with no rollback of the local write.
The uniquely-named S3 key of the upload is modelled by `s3FileName`. -/
def synthesizeSpeech (dir : DirState) (polly : Except (List Char) (List Nat))
    (s3Put : Except (List Char) Unit) : SpeechResult × DirState :=
  let cleared := clearPreviousAudio dir
  match polly with
  | .error e => (.failure e, cleared)
  | .ok audioBuffer =>
    let written := writeFileSync cleared currentAudioName audioBuffer
    match s3Put with
    | .ok _ => (.success currentAudioName ("public/aud_op/".data ++ currentAudioName), written)
    | .error e => (.failure e, written)

/-- Directory state after two sequential fully successful synthesis calls
with audio buffers `b1` then `b2`. -/
def twoSynthesisCalls (dir : DirState) (b1 b2 : List Nat) : DirState :=
  (synthesizeSpeech (synthesizeSpeech dir (.ok b1) (.ok ())).2 (.ok b2) (.ok ())).2

lemma filter_ne_then_eq_nil (l : DirState) (name : List Char) :
    (l.filter fun f => !(f.1 == name)).filter (fun f => f.1 == name) = [] := by
  induction l with
  | nil => rfl
  | cons a as ih =>
    by_cases h : (a.1 == name) = true
    · simp [List.filter_cons, h, ih]
    · simp only [Bool.not_eq_true] at h
      simp [List.filter_cons, h, ih]

/-- C5: after two sequential successful synthesis calls, the fixed local
name holds exactly the bytes of the second call, it is the only entry
under that name, and every `.mp3` file left in the directory is that one
(each call clears all prior `.mp3` files before writing the new one). -/
theorem twoSynthesisCalls_single_slot (dir : DirState) (b1 b2 : List Nat) :
    readFile (twoSynthesisCalls dir b1 b2) currentAudioName = some b2 ∧
      (twoSynthesisCalls dir b1 b2).filter (fun f => f.1 == currentAudioName)
        = [(currentAudioName, b2)] ∧
      ∀ n bs, (n, bs) ∈ twoSynthesisCalls dir b1 b2 → hasMp3Suffix n = true →
        n = currentAudioName ∧ bs = b2 := by
  have hT : twoSynthesisCalls dir b1 b2 =
      (currentAudioName, b2) ::
        (clearPreviousAudio
          (writeFileSync (clearPreviousAudio dir) currentAudioName b1)).filter
            (fun f => !(f.1 == currentAudioName)) := rfl
  refine ⟨?_, ?_, ?_⟩
  · rw [hT, readFile, List.find?_cons_of_pos _ (by simp)]
    rfl
  · rw [hT, List.filter_cons_of_pos (by simp), filter_ne_then_eq_nil]
  · intro n bs hmem hsuf
    rw [hT] at hmem
    rcases List.mem_cons.mp hmem with heq | hmem'
    · obtain ⟨h1, h2⟩ := Prod.mk.injEq .. ▸ heq
      exact ⟨h1, h2⟩
    · have hmem'' := (List.mem_filter.mp hmem').1
      have hnot := (List.mem_filter.mp hmem'').2
      simp only [Bool.not_eq_true'] at hnot
      rw [hnot] at hsuf
      cases hsuf

/-- C5 witness: starting from a directory holding an old `.mp3` and a text
file, two successful calls leave the fixed name bound to the second buffer
and every remaining `.mp3` entry equal to it. -/
theorem twoSynthesisCalls_single_slot_witness :
    readFile (twoSynthesisCalls [("old.mp3".data, [0]), ("notes.txt".data, [7])] [1] [2])
        currentAudioName = some [2] ∧
      (currentAudioName = currentAudioName ∧ ([2] : List Nat) = [2]) := by
  obtain ⟨h1, _, h3⟩ :=
    twoSynthesisCalls_single_slot [("old.mp3".data, [0]), ("notes.txt".data, [7])] [1] [2]
  exact ⟨h1, h3 currentAudioName [2] (by decide) (by decide)⟩

/-- C9: when the S3 upload of the synthesized audio fails after the local
write succeeded, `synthesizeSpeech` reports the failure (the catch block
returns the error message) but does not roll back the local write: the
fixed local name still holds the newly synthesized bytes. -/
theorem synthesizeSpeech_storage_failure_keeps_local (dir : DirState)
    (audioBuffer : List Nat) (e : List Char) :
    (synthesizeSpeech dir (.ok audioBuffer) (.error e)).1 = .failure e ∧
      readFile (synthesizeSpeech dir (.ok audioBuffer) (.error e)).2 currentAudioName
        = some audioBuffer := by
  refine ⟨rfl, ?_⟩
  show readFile (writeFileSync (clearPreviousAudio dir) currentAudioName audioBuffer)
    currentAudioName = some audioBuffer
  rw [readFile, writeFileSync, List.find?_cons_of_pos _ (by simp)]
  rfl

/-- Characters matched by an unescaped `.` in a JavaScript regular
expression: anything except the four ECMAScript line terminators. -/
def isRegexDotChar (c : Char) : Bool :=
  !(c == '\n' || c == '\r' || c == Char.ofNat 8232 || c == Char.ofNat 8233)

/-- Embedding of the well-formedness test
`/^s3:\/\/[^\/]+\/.+/.test(s3Uri)` performed by `startTranscription` in
`src/unnamed/part_000` (line 49): the string must start with `s3://`,
followed by a non-empty bucket segment containing no `/`, then `/`, then
at least one character matched by `.`.  Because `[^\/]+` cannot cross a
`/`, regex backtracking can only split at the first `/` after the scheme,
so this deterministic takeWhile/dropWhile form is equivalent. -/
def s3UriRegexTest (s : List Char) : Bool :=
  match s with
  | 's' :: '3' :: ':' :: '/' :: '/' :: rest =>
    match rest.takeWhile (fun c => !(c == '/')), rest.dropWhile (fun c => !(c == '/')) with
    | [], _ => false
    | _ :: _, '/' :: c :: _ => isRegexDotChar c
    | _ :: _, _ => false
  | _ => false

/-- The `MediaFileUri` built by `startTranscription` in
`src/unnamed/part_000` (line 42): `s3://mint-in/` (the fixed bucket, the
same one `src/help.js` uploads recordings to) followed by the audio file
key. -/
def transcribeBucketUri (audioFile : List Char) : List Char :=
  "s3://mint-in/".data ++ audioFile

/-- Outcome of `startTranscription`: either the job was submitted (the
`StartTranscriptionJobCommand` send is reached), or one of the two
pre-submission failures was thrown, carrying the exact message. -/
inductive StartTranscriptionResult
  | submitted
  | invalidReference (message : List Char)
  | sourceNotFound (message : List Char)
deriving DecidableEq

/-- Embedding of `startTranscription` from `src/unnamed/part_000`
(lines 36-72): builds the S3 URI, validates it against the regex (throwing
`Invalid S3 URI constructed for Transcribe: ...` when it fails), then runs
the `HeadObjectCommand` existence check (`headObjectOk` is its oracle
outcome; on failure it throws `S3 object not found or inaccessible: ...`
with the underlying message `headErrMsg`), and only then submits the
transcription job. -/
def startTranscription (headObjectOk : Bool) (headErrMsg : List Char)
    (audioFile : List Char) : StartTranscriptionResult :=
  let s3Uri := transcribeBucketUri audioFile
  if s3UriRegexTest s3Uri = false then
    .invalidReference ("Invalid S3 URI constructed for Transcribe: ".data ++ s3Uri)
  else if headObjectOk = false then
    .sourceNotFound ("S3 object not found or inaccessible: ".data ++ s3Uri
      ++ " -- ".data ++ headErrMsg)
  else
    .submitted

/-- C3: before submitting a transcription job the coordinator validates
the storage locator and the existence of the referenced object: a
malformed locator yields the invalid-reference failure and a failed
existence check yields the source-not-found failure, in both cases without
submitting; submission implies both checks passed.  The final conjunct
characterizes well-formedness for the fixed non-empty bucket: the key must
be non-empty (starting with a character the regex dot accepts). -/
theorem startTranscription_validates (headObjectOk : Bool)
    (headErrMsg audioFile : List Char) :
    (s3UriRegexTest (transcribeBucketUri audioFile) = false →
      startTranscription headObjectOk headErrMsg audioFile =
        .invalidReference ("Invalid S3 URI constructed for Transcribe: ".data ++
          transcribeBucketUri audioFile)) ∧
    (s3UriRegexTest (transcribeBucketUri audioFile) = true → headObjectOk = false →
      startTranscription headObjectOk headErrMsg audioFile =
        .sourceNotFound ("S3 object not found or inaccessible: ".data ++
          transcribeBucketUri audioFile ++ " -- ".data ++ headErrMsg)) ∧
    (startTranscription headObjectOk headErrMsg audioFile = .submitted →
      s3UriRegexTest (transcribeBucketUri audioFile) = true ∧ headObjectOk = true) ∧
    (s3UriRegexTest (transcribeBucketUri audioFile) = true ↔
      ∃ c rest, audioFile = c :: rest ∧ isRegexDotChar c = true) := by
  refine ⟨?_, ?_, ?_, ?_⟩
  · intro hbad
    simp only [startTranscription, hbad]
    rfl
  · intro hgood hhead
    simp only [startTranscription, hgood, hhead]
    rfl
  · intro hsub
    by_cases hre : s3UriRegexTest (transcribeBucketUri audioFile) = false
    · simp only [startTranscription, hre] at hsub
      cases hsub
    · have hre' : s3UriRegexTest (transcribeBucketUri audioFile) = true := by
        cases h : s3UriRegexTest (transcribeBucketUri audioFile)
        · exact absurd h hre
        · rfl
      refine ⟨hre', ?_⟩
      by_cases hh : headObjectOk = false
      · simp only [startTranscription, hre', hh] at hsub
        cases hsub
      · cases h : headObjectOk
        · exact absurd h hh
        · rfl
  · cases audioFile with
    | nil =>
      constructor
      · intro h
        have : s3UriRegexTest (transcribeBucketUri []) = false := by decide
        rw [this] at h
        cases h
      · rintro ⟨c, rest, hcon, -⟩
        cases hcon
    | cons c rest =>
      have hcompute : s3UriRegexTest (transcribeBucketUri (c :: rest)) =
          isRegexDotChar c := rfl
      rw [hcompute]
      constructor
      · intro h
        exact ⟨c, rest, rfl, h⟩
      · rintro ⟨c2, rest2, hcon, h2⟩
        obtain ⟨rfl, rfl⟩ := List.cons.injEq .. ▸ hcon
        exact h2

/-- C3 witness: the empty key is rejected as an invalid reference, and a
well-formed key whose existence check fails is rejected as source not
found. -/
theorem startTranscription_validates_witness :
    startTranscription true [] [] =
      .invalidReference ("Invalid S3 URI constructed for Transcribe: ".data ++
        transcribeBucketUri []) ∧
    startTranscription false "denied".data "a.mp3".data =
      .sourceNotFound ("S3 object not found or inaccessible: ".data ++
        transcribeBucketUri "a.mp3".data ++ " -- ".data ++ "denied".data) :=
  ⟨(startTranscription_validates true [] []).1 (by decide),
    (startTranscription_validates false "denied".data "a.mp3".data).2.1 (by decide) rfl⟩

/-- Status of the asynchronous transcription job as observed by one
`GetTranscriptionJobCommand` poll. -/
inductive TranscriptionStatus
  | completed (transcriptFileUri : List Char)
  | failed
  | inProgress
deriving DecidableEq

/-- Embedding of `waitForCompletion` from `src/transcribe.js` (lines
52-66, identical in `src/unnamed/part_000`): polls the job status every
100 ms until it is terminal.  `polls` is the stream of successive status
responses; `none` models the unbounded loop never observing a terminal
status.  On COMPLETED it returns the transcript file URI; on FAILED it
throws `Transcription job failed.`. -/
def waitForCompletion :
    List TranscriptionStatus → Option (Except (List Char) (List Char))
  | [] => none
  | .completed uri :: _ => some (.ok uri)
  | .failed :: _ => some (.error ("Transcription job failed.".data))
  | .inProgress :: rest => waitForCompletion rest

/-- Oracle environment of one pipeline run: outcomes of the external
service calls made by `transcribeAudio`, `generateTextWithGranite` and
`synthesizeSpeech` as invoked from `processAudioWithAI`. -/
structure PipelineEnv where
  startResult : Except (List Char) Unit
  polls : List TranscriptionStatus
  transcriptResult : Except (List Char) (List Char)
  generateResult : List Char → Except (List Char) (List Char)
  synthesizeResult : List Char → SpeechResult

/-- Embedding of `transcribeAudio` from `src/transcribe.js` (lines
109-120): start the job, wait for completion, fetch the transcript text;
the catch block logs and rethrows, so errors propagate unchanged.
`startResult` is the outcome of `startTranscription`, `transcriptResult`
the outcome of `getTranscriptText`. -/
def transcribeAudio (env : PipelineEnv) : Option (Except (List Char) (List Char)) :=
  match env.startResult with
  | .error e => some (.error e)
  | .ok _ =>
    match waitForCompletion env.polls with
    | none => none
    | some (.error e) => some (.error e)
    | some (.ok _) => some env.transcriptResult

/-- Pipeline stage, used to record which external services a run actually
invoked. -/
inductive Stage
  | transcription
  | generation
  | synthesis
deriving DecidableEq

/-- Result value of `processAudioWithAI`: the success record or the
`{success:false, error, step}` record built by the catch block. -/
inductive PipelineResult
  | ok (transcribedText aiResponse audioFile message : List Char)
  | failure (error step : List Char)
deriving DecidableEq

/-- Embedding of `processAudioWithAI` from `src/help.js` (lines 58-98):
transcription, then generation, then synthesis, each awaited in order; a
thrown error from any stage is caught by the single catch block, which
returns `{success:false, error: message, step: "AI Pipeline"}` — the
`step` field is the constant string `AI Pipeline`, whatever stage threw.
A failed synthesis result is turned into a thrown
`Speech synthesis failed: ...` error first.  The second component lists
the stages whose service call was reached, in order; `none` models the
run never returning (unbounded polling). -/
def processAudioWithAI (env : PipelineEnv) :
    Option (PipelineResult × List Stage) :=
  match transcribeAudio env with
  | none => none
  | some (.error e) => some (.failure e ("AI Pipeline".data), [Stage.transcription])
  | some (.ok transcribedText) =>
    match env.generateResult transcribedText with
    | .error e => some (.failure e ("AI Pipeline".data),
        [Stage.transcription, Stage.generation])
    | .ok aiResponse =>
      match env.synthesizeResult aiResponse with
      | .success _ relativePath =>
        some (.ok transcribedText aiResponse relativePath
            ("AI pipeline completed successfully".data),
          [Stage.transcription, Stage.generation, Stage.synthesis])
      | .failure e =>
        some (.failure ("Speech synthesis failed: ".data ++ e) ("AI Pipeline".data),
          [Stage.transcription, Stage.generation, Stage.synthesis])

/-- The poll stream reaches FAILED as its first terminal status. -/
def reachesFailed : List TranscriptionStatus → Bool
  | [] => false
  | .completed _ :: _ => false
  | .failed :: _ => true
  | .inProgress :: rest => reachesFailed rest

lemma waitForCompletion_of_reachesFailed (polls : List TranscriptionStatus)
    (h : reachesFailed polls = true) :
    waitForCompletion polls = some (.error ("Transcription job failed.".data)) := by
  induction polls with
  | nil => cases h
  | cons s rest ih =>
    cases s with
    | completed uri => cases h
    | failed => rfl
    | inProgress => exact ih h

/-- C2 (amended): when the transcription job status becomes FAILED, the
run returns a failure result carrying the underlying message
`Transcription job failed.` and invokes neither the generation nor the
synthesis service (the invoked-stage trace is exactly
`[transcription]`) — but the `step` field of the failure is the constant
`AI Pipeline`, not the name of the failing stage. -/
theorem processAudioWithAI_transcription_failed (env : PipelineEnv)
    (hstart : env.startResult = .ok ())
    (hpolls : reachesFailed env.polls = true) :
    processAudioWithAI env =
      some (.failure ("Transcription job failed.".data) ("AI Pipeline".data),
        [Stage.transcription]) := by
  have hwait := waitForCompletion_of_reachesFailed env.polls hpolls
  simp only [processAudioWithAI, transcribeAudio, hstart, hwait]

/-- C2 witness: a concrete environment whose first poll reports FAILED. -/
theorem processAudioWithAI_transcription_failed_witness :
    processAudioWithAI
      ⟨Except.ok (), [TranscriptionStatus.failed], Except.ok "t".data,
        fun _ => Except.ok "g".data,
        fun _ => SpeechResult.success "c".data "p".data⟩ =
      some (.failure ("Transcription job failed.".data) ("AI Pipeline".data),
        [Stage.transcription]) :=
  processAudioWithAI_transcription_failed _ rfl rfl

/-- C2 (counterexample): in a run whose transcription job fails, the
failure result's `step` field is the constant `AI Pipeline`, which differs
from `transcription` — the result does not report `stage=transcription`
as claimed. -/
theorem processAudioWithAI_step_is_constant :
    processAudioWithAI
      ⟨Except.ok (), [TranscriptionStatus.failed], Except.ok "t".data,
        fun _ => Except.ok "g".data,
        fun _ => SpeechResult.success "c".data "p".data⟩ =
      some (.failure ("Transcription job failed.".data) ("AI Pipeline".data),
        [Stage.transcription]) ∧
    "AI Pipeline".data ≠ "transcription".data :=
  ⟨rfl, by decide⟩

/-- Shape of the `response.result` document returned by
`watsonxAI.generateText` as read by `src/graniteLLM.js`: the optional
`results` array (each entry contributing its `generated_text` string) and
the optional fallback `generations` array (each entry an object with an
optional `text` field). -/
structure WatsonResult where
  results : Option (List (List Char))
  generations : Option (List (Option (List Char)))
deriving DecidableEq

/-- JavaScript `String.prototype.trim`: strips whitespace from both
ends. -/
def jsTrim (s : List Char) : List Char :=
  ((s.dropWhile isJsWhitespace).reverse.dropWhile isJsWhitespace).reverse

/-- Embedding of `generateTextWithGranite` from `src/graniteLLM.js`
(lines 29-68): validates the input (an empty string is falsy and throws),
requires the client to have been constructed, invokes the service
(`service` is the oracle outcome; `.ok none` models a falsy
response/result), then extracts the text: `results[0].generated_text`
trimmed when the `results` array is non-empty, else
`(generations[0].text || '')` trimmed when a `generations` array with a
first entry exists, else the literal `No result field in response`.  Every
thrown message is wrapped by the catch block into
`Watsonx Granite LLM error: ...`. -/
def generateTextWithGranite (inputText : List Char) (clientInitialized : Bool)
    (service : Except (List Char) (Option WatsonResult)) :
    Except (List Char) (List Char) :=
  if inputText = [] then
    .error ("Watsonx Granite LLM error: ".data ++
      "Input text is required and must be a string".data)
  else if clientInitialized = false then
    .error ("Watsonx Granite LLM error: ".data ++
      "Watsonx client not initialized. Ensure WATSONX_AI_APIKEY and WATSONX_AI_URL are set.".data)
  else
    match service with
    | .error e => .error ("Watsonx Granite LLM error: ".data ++ e)
    | .ok response =>
      match response with
      | some r =>
        match r.results with
        | some (t :: _) => .ok (jsTrim t)
        | _ =>
          match r.generations with
          | some (g :: _) => .ok (jsTrim (g.getD []))
          | _ => .ok ("No result field in response".data)
      | none => .ok ("No result field in response".data)

/-- C10: when the generation service responds without raising but the
response carries neither a non-empty `results` array nor a `generations`
field, `generateTextWithGranite` does not throw: it returns the literal
string `No result field in response` as the generated text. -/
theorem generateTextWithGranite_no_result_field (inputText : List Char)
    (r : WatsonResult) (hin : inputText ≠ [])
    (hres : r.results = none ∨ r.results = some [])
    (hgen : r.generations = none) :
    generateTextWithGranite inputText true (.ok (some r)) =
      .ok ("No result field in response".data) := by
  rcases hres with hres | hres <;>
    simp [generateTextWithGranite, hin, hres, hgen]

/-- C10 witness: a concrete response with both fields absent yields the
literal fallback text. -/
theorem generateTextWithGranite_no_result_field_witness :
    generateTextWithGranite "x".data true (.ok (some ⟨none, none⟩)) =
      .ok ("No result field in response".data) :=
  generateTextWithGranite_no_result_field "x".data ⟨none, none⟩ (by decide)
    (Or.inl rfl) rfl
